import Mathlib

/-!
Verification development for the chat interface component
(`src/components/ChatInterface.tsx`).

The component's logic is shallowly embedded:

* `renderMarkdown` — the hand-rolled line-oriented markdown renderer
  (source lines 41–102).  Lines are split on newline characters; each
  line first goes through three global regular-expression replaces
  (bold, emphasis, inline code — source lines 64–67), is then classified
  as ordered-list item / unordered-list item / blank / plain text
  (source lines 69–70, 90), and updates the accumulated html string,
  the open list tag and the paragraph buffer (source lines 49–99).
  The JavaScript regex replaces are modelled character-exactly for the
  three concrete patterns used by the source (leftmost match, first
  alternative first, lazy `.*?` = shortest closing delimiter, scan
  resumes after each replacement, one-character advance on failure).
  Machine strings are `List Char`; `String` appears only at the API
  boundary.  The whitespace class models the ASCII part of the
  JavaScript `\s` class and of `String.prototype.trim` (the two agree),
  which is exact on all inputs free of non-ASCII whitespace.

* a block-level abstraction (`stepB` / `specBlocks`) used to state and
  prove the structural claims about paragraphs and lists,

* the suggestion rotator effect (source lines 25–39) and its timer
  lifecycle, the submit handler (source lines 105–111), and the
  history rendering precondition (source line 142).
-/

/-- ASCII part of the JavaScript whitespace class `\s` (space, tab,
newline, vertical tab, form feed, carriage return). -/
def wsChar (c : Char) : Bool :=
  c = ' ' || c = '\t' || c = '\n' || c = Char.ofNat 11 || c = Char.ofNat 12 || c = '\r'

/-- JavaScript `String.prototype.trim`: drop whitespace from both ends. -/
def jsTrim (l : List Char) : List Char :=
  (((l.dropWhile wsChar).reverse).dropWhile wsChar).reverse

/-- The backtick character (written via its code point). -/
def btChar : Char := Char.ofNat 96

/-- Split a list at the first occurrence of the delimiter `d`: returns
the part strictly before the first `d` and the part strictly after it.
Models the lazy group `(.*?)` followed by a one-character delimiter (and
the greedy `([^x]+)` followed by `x`, which matches the same split). -/
def splitAtFirst (d : Char) : List Char → Option (List Char × List Char)
  | [] => none
  | c :: rest =>
    if c = d then some ([], rest)
    else (splitAtFirst d rest).map (fun p => (c :: p.1, p.2))

/-- Find the first occurrence of the two-character delimiter `dd` in the
list: returns the part strictly before it and the part strictly after
it.  Models the lazy group `(.*?)` followed by a doubled delimiter. -/
def findClose2 (d : Char) : List Char → Option (List Char × List Char)
  | [] => none
  | [_] => none
  | c1 :: c2 :: rest =>
    if c1 = d && c2 = d then some ([], rest)
    else (findClose2 d (c2 :: rest)).map (fun p => (c1 :: p.1, p.2))

/-- Replacement fragments used by the renderer (source lines 51, 58,
65–67, 76, 79, 84, 93). -/
def strongOpenTag : List Char := "<strong>".data

def strongCloseTag : List Char := "</strong>".data

def emOpenTag : List Char := "<em>".data

def emCloseTag : List Char := "</em>".data

def codeOpenTag : List Char :=
  "<code class=\"bg-gem-mist/50 px-1 py-0.5 rounded-sm font-mono text-sm\">".data

def codeCloseTag : List Char := "</code>".data

def pOpenTag : List Char := "<p class=\"my-2\">".data

def pCloseTag : List Char := "</p>".data

def olOpenTag : List Char := "<ol class=\"list-decimal list-inside my-2 pl-5 space-y-1\">".data

def ulOpenTag : List Char := "<ul class=\"list-disc list-inside my-2 pl-5 space-y-1\">".data

def brTag : List Char := "<br/>".data

/-- Global replace for `/\*\*(.*?)\*\*|__(.*?)__/g` → `<strong>$1$2</strong>`
(source line 65).  Fuel-indexed for structural recursion; each step
consumes at least one character, so fuel equal to the input length is
exact.  When an opening `**` has no closing `**` the engine advances one
position; since the next position starts with the second `*`, no match
can start there either, so both characters are emitted at once (and
symmetrically for `__`). -/
def boldReplaceF : Nat → List Char → List Char
  | 0, l => l
  | _ + 1, [] => []
  | fuel + 1, '*' :: '*' :: rest =>
    match findClose2 '*' rest with
    | some (inner, rest2) => strongOpenTag ++ inner ++ strongCloseTag ++ boldReplaceF fuel rest2
    | none => '*' :: '*' :: boldReplaceF fuel rest
  | fuel + 1, '_' :: '_' :: rest =>
    match findClose2 '_' rest with
    | some (inner, rest2) => strongOpenTag ++ inner ++ strongCloseTag ++ boldReplaceF fuel rest2
    | none => '_' :: '_' :: boldReplaceF fuel rest
  | fuel + 1, c :: rest => c :: boldReplaceF fuel rest

/-- Global replace for `/\*(.*?)\*|_(.*?)_/g` → `<em>$1$2</em>`
(source line 66). -/
def emReplaceF : Nat → List Char → List Char
  | 0, l => l
  | _ + 1, [] => []
  | fuel + 1, '*' :: rest =>
    match splitAtFirst '*' rest with
    | some (inner, rest2) => emOpenTag ++ inner ++ emCloseTag ++ emReplaceF fuel rest2
    | none => '*' :: emReplaceF fuel rest
  | fuel + 1, '_' :: rest =>
    match splitAtFirst '_' rest with
    | some (inner, rest2) => emOpenTag ++ inner ++ emCloseTag ++ emReplaceF fuel rest2
    | none => '_' :: emReplaceF fuel rest
  | fuel + 1, c :: rest => c :: emReplaceF fuel rest

/-- Global replace for an inline code span (backtick, one or more
non-backtick characters, backtick) → `<code class="...">$1</code>`
(source line 67).  An empty span (two adjacent backticks) does not
match, in which case the engine advances one position. -/
def codeReplaceF : Nat → List Char → List Char
  | 0, l => l
  | _ + 1, [] => []
  | fuel + 1, c :: rest =>
    if c = btChar then
      match splitAtFirst btChar rest with
      | some (inner, rest2) =>
        if inner = [] then c :: codeReplaceF fuel rest
        else codeOpenTag ++ inner ++ codeCloseTag ++ codeReplaceF fuel rest2
      | none => c :: codeReplaceF fuel rest
    else c :: codeReplaceF fuel rest

/-- The three inline substitutions applied to one line, in source order:
bold, then emphasis, then inline code (source lines 64–67). -/
def lineSub (l : List Char) : List Char :=
  codeReplaceF (emReplaceF (boldReplaceF l.length l).length (boldReplaceF l.length l)).length
    (emReplaceF (boldReplaceF l.length l).length (boldReplaceF l.length l))

/-- Match of `/^\s*\d+\.\s(.*)/` (source line 69): optional leading
whitespace, at least one digit, a period, one whitespace character, and
the captured remainder.  The character classes are pairwise disjoint, so
greedy matching needs no backtracking. -/
def matchOl (l : List Char) : Option (List Char) :=
  match (l.dropWhile wsChar).takeWhile Char.isDigit,
        (l.dropWhile wsChar).dropWhile Char.isDigit with
  | [], _ => none
  | _ :: _, '.' :: s :: rest => if wsChar s then some rest else none
  | _ :: _, _ => none

/-- Match of `/^\s*[\*\-]\s(.*)/` (source line 70): optional leading
whitespace, a `*` or `-`, one whitespace character, and the captured
remainder. -/
def matchUl (l : List Char) : Option (List Char) :=
  match l.dropWhile wsChar with
  | c :: s :: rest => if (c = '*' || c = '-') && wsChar s then some rest else none
  | _ => none

/-- List kinds of the renderer: the `listType` variable holds `'ol'`,
`'ul'` or `null` (source line 46). -/
inductive LKind
  | ol
  | ul
deriving DecidableEq

/-- Classification of one (already substituted) line: ordered-list item
with its captured text, unordered-list item with its captured text,
blank (trims to the empty string), or plain text (source lines 69–72,
80, 88–94). -/
inductive LineClass
  | olItem (item : List Char)
  | ulItem (item : List Char)
  | blank
  | txt (line : List Char)
deriving DecidableEq

/-- Classify a substituted line the way the `if`/`else if`/`else` chain
of the source does: ordered item first, then unordered item, then the
trim test. -/
def classify (line : List Char) : LineClass :=
  match matchOl line with
  | some item => .olItem item
  | none =>
    match matchUl line with
    | some item => .ulItem item
    | none => if jsTrim line = [] then .blank else .txt line

/-- Wrap one list item (source lines 79, 87). -/
def liWrap (item : List Char) : List Char := "<li>".data ++ item ++ "</li>".data

/-- Opening tag for a list kind (source lines 76, 84). -/
def listOpen : LKind → List Char
  | .ol => olOpenTag
  | .ul => ulOpenTag

/-- Closing tag for a list kind (source line 58). -/
def listClose : LKind → List Char
  | .ol => "</ol>".data
  | .ul => "</ul>".data

/-- The renderer's mutable state: the accumulated `html` string, the
currently open `listType`, and the paragraph buffer (source lines
45–47). -/
structure SState where
  html : List Char
  listType : Option LKind
  para : List Char

/-- `flushPara` (source lines 49–54): if the paragraph buffer is
non-empty, emit it as one paragraph block and clear it. -/
def flushPara (st : SState) : SState :=
  if st.para = [] then st
  else { st with html := st.html ++ pOpenTag ++ st.para ++ pCloseTag, para := [] }

/-- `flushList` (source lines 56–61): if a list is open, emit its
closing tag and clear the list type. -/
def flushList (st : SState) : SState :=
  match st.listType with
  | none => st
  | some k => { st with html := st.html ++ listClose k, listType := none }

/-- One iteration of the renderer's loop body after classification
(source lines 72–95). -/
def stepS (st : SState) (c : LineClass) : SState :=
  match c with
  | .olItem item =>
    let st1 := flushPara st
    let st2 :=
      if st1.listType = some LKind.ol then st1
      else
        let st3 := flushList st1
        { st3 with html := st3.html ++ olOpenTag, listType := some LKind.ol }
    { st2 with html := st2.html ++ liWrap item }
  | .ulItem item =>
    let st1 := flushPara st
    let st2 :=
      if st1.listType = some LKind.ul then st1
      else
        let st3 := flushList st1
        { st3 with html := st3.html ++ ulOpenTag, listType := some LKind.ul }
    { st2 with html := st2.html ++ liWrap item }
  | .blank => flushPara (flushList st)
  | .txt line =>
    let st1 := flushList st
    { st1 with para := st1.para ++ (if st1.para = [] then [] else brTag) ++ line }

/-- One iteration of the renderer's loop on a raw line: apply the three
inline substitutions, then classify and update the state (source lines
63–95). -/
def stepLine (st : SState) (rawLine : List Char) : SState :=
  stepS st (classify (lineSub rawLine))

/-- Initial renderer state (source lines 45–47). -/
def mdInit : SState := ⟨[], none, []⟩

/-- `text.split('\n')` on character lists: the empty list yields one
empty line, and every newline character ends the current line. -/
def splitLines : List Char → List (List Char)
  | [] => [[]]
  | c :: rest =>
    if c = '\n' then [] :: splitLines rest
    else
      match splitLines rest with
      | [] => [[c]]
      | l :: ls => (c :: l) :: ls

/-- The renderer's loop over all lines followed by the final
`flushPara(); flushList();` (source lines 63–99). -/
def runLines (lines : List (List Char)) : List Char :=
  (flushList (flushPara (lines.foldl stepLine mdInit))).html

/-- `renderMarkdown` (source lines 41–102): empty input short-circuits
to the empty fragment; otherwise the input is split on newlines and the
loop runs.  The returned value models the `__html` string. -/
def renderMarkdown (text : String) : String :=
  if text = "" then "" else String.mk (runLines (splitLines text.data))

/-- A structural block of renderer output: one paragraph, or one list of
a given kind with its items in order. -/
inductive Block
  | para (content : List Char)
  | list (k : LKind) (items : List (List Char))
deriving DecidableEq

/-- Concatenation of rendered pieces. -/
def catMap (f : α → List Char) : List α → List Char
  | [] => []
  | a :: l => f a ++ catMap f l

/-- Markup of one block. -/
def blockHtml : Block → List Char
  | .para c => pOpenTag ++ c ++ pCloseTag
  | .list k items => listOpen k ++ catMap liWrap items ++ listClose k

/-- Markup of a block sequence. -/
def blocksHtml (bs : List Block) : List Char := catMap blockHtml bs

/-- Pending (not yet emitted) output of the renderer: nothing, an open
list with the items emitted so far, or a non-empty paragraph buffer. -/
inductive Pending
  | nothing
  | inList (k : LKind) (items : List (List Char))
  | inPara (buf : List Char)
deriving DecidableEq

/-- Blocks produced when the pending output is flushed.  An empty
paragraph buffer produces nothing (the source's `if (paraBuffer)`
test). -/
def pendingBlocks : Pending → List Block
  | .nothing => []
  | .inList k items => [.list k items]
  | .inPara buf => if buf = [] then [] else [.para buf]

/-- Partial markup already written for the pending output: an open list
has its opening tag and items written, a paragraph buffer has written
nothing yet. -/
def pendHtml : Pending → List Char
  | .nothing => []
  | .inList k items => listOpen k ++ catMap liWrap items
  | .inPara _ => []

/-- The `listType` variable corresponding to a pending output. -/
def pendKind : Pending → Option LKind
  | .inList k _ => some k
  | _ => none

/-- The `paraBuffer` variable corresponding to a pending output. -/
def pendPara : Pending → List Char
  | .inPara buf => buf
  | _ => []

/-- Block-level state: emitted blocks plus pending output. -/
structure BState where
  out : List Block
  pend : Pending
deriving DecidableEq

/-- Block-level reading of one loop iteration; mirrors `stepS` with the
html string replaced by structured blocks. -/
def stepB (st : BState) (c : LineClass) : BState :=
  match c, st.pend with
  | .olItem i, .inList .ol items => ⟨st.out, .inList .ol (items ++ [i])⟩
  | .olItem i, .inList .ul items => ⟨st.out ++ pendingBlocks (.inList .ul items), .inList .ol [i]⟩
  | .olItem i, .inPara buf => ⟨st.out ++ pendingBlocks (.inPara buf), .inList .ol [i]⟩
  | .olItem i, .nothing => ⟨st.out, .inList .ol [i]⟩
  | .ulItem i, .inList .ul items => ⟨st.out, .inList .ul (items ++ [i])⟩
  | .ulItem i, .inList .ol items => ⟨st.out ++ pendingBlocks (.inList .ol items), .inList .ul [i]⟩
  | .ulItem i, .inPara buf => ⟨st.out ++ pendingBlocks (.inPara buf), .inList .ul [i]⟩
  | .ulItem i, .nothing => ⟨st.out, .inList .ul [i]⟩
  | .blank, p => ⟨st.out ++ pendingBlocks p, .nothing⟩
  | .txt l, .inPara buf =>
    if buf = [] then ⟨st.out, .inPara l⟩ else ⟨st.out, .inPara (buf ++ brTag ++ l)⟩
  | .txt l, .inList k items => ⟨st.out ++ pendingBlocks (.inList k items), .inPara l⟩
  | .txt l, .nothing => ⟨st.out, .inPara l⟩

/-- Final flush at block level. -/
def finalB (b : BState) : List Block := b.out ++ pendingBlocks b.pend

/-- Blocks produced by running the machine on a classified line list. -/
def runBlocks (cls : List LineClass) : List Block :=
  finalB (cls.foldl stepB ⟨[], .nothing⟩)

/-- The string state corresponding to a block state. -/
def absState (b : BState) : SState :=
  ⟨blocksHtml b.out ++ pendHtml b.pend, pendKind b.pend, pendPara b.pend⟩

/-- Two classified lines belong to the same run exactly when they are
list items of the same kind or both plain text. -/
def sameRun : LineClass → LineClass → Bool
  | .olItem _, .olItem _ => true
  | .ulItem _, .ulItem _ => true
  | .txt _, .txt _ => true
  | _, _ => false

/-- Take the maximal run continuing `a`: the longest prefix in which
each element is related to its predecessor, together with the rest. -/
def takeRun (R : α → α → Bool) (a : α) : List α → List α × List α
  | [] => ([], [])
  | b :: rest =>
    if R a b then ((b :: (takeRun R b rest).1), (takeRun R b rest).2)
    else ([], b :: rest)

/-- Item text of an ordered-list line. -/
def olText : LineClass → Option (List Char)
  | .olItem i => some i
  | _ => none

/-- Item text of an unordered-list line. -/
def ulText : LineClass → Option (List Char)
  | .ulItem i => some i
  | _ => none

/-- Text of a plain line. -/
def txtText : LineClass → Option (List Char)
  | .txt l => some l
  | _ => none

/-- Paragraph contents joined by the line-break marker. -/
def joinBr : List (List Char) → List Char
  | [] => []
  | t :: ts => t ++ catMap (fun s => brTag ++ s) ts

/-- The single block a maximal run produces: a run of ordered items is
one ordered list, a run of unordered items is one unordered list, a run
of plain lines is one paragraph joined by line breaks, and a blank line
produces nothing. -/
def runToBlock (g : List LineClass) : Option Block :=
  match g.head? with
  | some (.olItem _) => some (.list .ol (g.filterMap olText))
  | some (.ulItem _) => some (.list .ul (g.filterMap ulText))
  | some (.txt _) => some (.para (joinBr (g.filterMap txtText)))
  | _ => none

/-- Length bound for the rest returned by `takeRun`. -/
theorem takeRun_snd_length (R : α → α → Bool) :
    ∀ (a : α) (l : List α), ((takeRun R a l).2).length ≤ l.length := by
  intro a l
  induction l generalizing a with
  | nil => simp [takeRun]
  | cons b rest ih =>
    by_cases h : R a b
    · simpa [takeRun, h] using Nat.le_succ_of_le (ih b)
    · simp [takeRun, h]

/-- Specification of the renderer's block structure, written from the
spec: split the classified lines into maximal runs and turn each run
into at most one block. -/
def specBlocks : List LineClass → List Block
  | [] => []
  | c :: rest =>
    match runToBlock (c :: (takeRun sameRun c rest).1) with
    | some blk => blk :: specBlocks (takeRun sameRun c rest).2
    | none => specBlocks (takeRun sameRun c rest).2
termination_by cls => cls.length
decreasing_by
  all_goals
    simp only [List.length_cons]
    have h := takeRun_snd_length sameRun c rest
    omega

/-- Specification of the whole renderer, written from the spec: split
into lines, substitute and classify each line, group maximal runs into
blocks, and render the blocks in order. -/
def specRenderString (text : String) : String :=
  if text = "" then ""
  else String.mk (blocksHtml (specBlocks ((splitLines text.data).map (fun l => classify (lineSub l)))))

/-- Per-line goodness: a plain-text class always carries a non-empty
line (a line trimming to nothing is classified blank instead). -/
def goodClass : LineClass → Prop
  | .txt l => l ≠ []
  | _ => True

/-- All classes of a list are good. -/
def goodCls (cls : List LineClass) : Prop := ∀ c ∈ cls, goodClass c

/-- The pending output does not merge with the first classified line:
an open ordered list is not followed immediately by an ordered item, an
open unordered list not by an unordered item, and a non-empty paragraph
buffer not by a plain line. -/
def freshFor (p : Pending) (cls : List LineClass) : Prop :=
  match p, cls with
  | .nothing, _ => True
  | _, [] => True
  | .inList .ol _, .olItem _ :: _ => False
  | .inList .ul _, .ulItem _ :: _ => False
  | .inList _ _, _ :: _ => True
  | .inPara buf, .txt _ :: _ => buf = []
  | .inPara _, _ :: _ => True

/-- State of the suggestion rotator (source lines 22, 32): the current
suggestion shown and the closure's index variable. -/
structure RotState where
  suggestionIndex : Nat
  currentSuggestion : String
deriving DecidableEq

/-- Effect body for a non-empty suggestion list (source lines 31–32):
show the first element and start the index at zero. -/
def suggestionStart (qs : List String) : RotState :=
  { suggestionIndex := 0, currentSuggestion := qs.getD 0 "" }

/-- One interval tick (source lines 33–36): advance the index modulo
the list length and show the element at the new index. -/
def suggestionTick (qs : List String) (st : RotState) : RotState :=
  { suggestionIndex := (st.suggestionIndex + 1) % qs.length,
    currentSuggestion := qs.getD ((st.suggestionIndex + 1) % qs.length) "" }

/-- The whole effect body (source lines 25–39): for an empty list set
the suggestion to the empty string and start no timer; otherwise start
the rotation.  The boolean records whether an interval timer was
started. -/
def suggestionEffect (qs : List String) : RotState × Bool :=
  if qs.length = 0 then ({ suggestionIndex := 0, currentSuggestion := "" }, false)
  else (suggestionStart qs, true)

/-- Rotator state after `n` interval periods have elapsed: if a timer
was started it has ticked `n` times, otherwise nothing happened. -/
def suggestionAfterTicks (qs : List String) (n : Nat) : RotState :=
  if (suggestionEffect qs).2 then (suggestionTick qs)^[n] (suggestionEffect qs).1
  else (suggestionEffect qs).1

/-- State of the component plus its timer environment, for the effect
lifecycle.  `active` is the set of scheduled interval timers (by id),
`curTimer` the timer the latest effect's cleanup would clear, `deps`
the currently supplied suggestion list. -/
structure TimerSys where
  active : List Nat
  nextId : Nat
  current : String
  idx : Nat
  curTimer : Option Nat
  deps : List String
deriving DecidableEq

/-- Lifecycle events: the suggestion list is (re)supplied (mount or
dependency change), an interval timer with a given id fires, or the
component is disposed. -/
inductive CEvent
  | setList (qs : List String)
  | tick (id : Nat)
  | unmount
deriving DecidableEq

/-- The cleanup returned by the effect (source line 38):
`clearInterval(intervalId)` for the latest effect's timer.  Modelled
from React's documented effect lifecycle: the previous cleanup runs
before the next effect body and before teardown. -/
def runCleanup (s : TimerSys) : TimerSys :=
  match s.curTimer with
  | none => s
  | some id => { s with active := s.active.erase id, curTimer := none }

/-- The effect body (source lines 26–36): empty list shows the empty
suggestion and starts no timer; otherwise show the first element, reset
the index, and schedule a fresh interval timer. -/
def runEffect (qs : List String) (s : TimerSys) : TimerSys :=
  if qs.length = 0 then { s with current := "", curTimer := none, deps := qs }
  else
    { s with current := qs.getD 0 "", idx := 0,
             active := s.active ++ [s.nextId], curTimer := some s.nextId,
             nextId := s.nextId + 1, deps := qs }

/-- Lifecycle transition: a dependency change runs the previous cleanup
and then the effect body; a tick fires only if its timer is still
scheduled (a cleared interval never fires); unmount runs the cleanup. -/
def stepEvent (s : TimerSys) : CEvent → TimerSys
  | .setList qs => runEffect qs (runCleanup s)
  | .tick id =>
    if id ∈ s.active then
      { s with idx := (s.idx + 1) % s.deps.length,
               current := s.deps.getD ((s.idx + 1) % s.deps.length) "" }
    else s
  | .unmount => runCleanup s

/-- System state before the component ever mounted. -/
def initSys : TimerSys := ⟨[], 0, "", 0, none, []⟩

/-- Lifecycle invariant: the scheduled timers are exactly the latest
effect's timer (if any), whose id is below the id counter. -/
def TInv (s : TimerSys) : Prop :=
  match s.curTimer with
  | none => s.active = []
  | some id => s.active = [id] ∧ id < s.nextId

/-- `handleSubmit` (source lines 105–111): invoke the callback with the
raw query and clear the field exactly when the query trims non-empty;
otherwise do nothing.  The first component is the message passed to
`onSendMessage` (`none` = no callback invoked), the second the new
value of the query field. -/
def handleSubmit (query : String) : Option String × String :=
  if jsTrim query.data = [] then (none, query) else (some query, "")

/-- Modelled from the spec: one text part of a message (`../types` is
not part of the sources; spec section 3 gives the shape). -/
structure MessagePart where
  text : String
deriving DecidableEq

/-- Modelled from the spec: retrieved context of a grounding
reference. -/
structure RetrievedContext where
  text : String
deriving DecidableEq

/-- Modelled from the spec: a grounding reference with optional
retrieved context. -/
structure GroundingChunk where
  retrievedContext : Option RetrievedContext
deriving DecidableEq

/-- Modelled from the spec: a chat message — role, ordered text parts,
optional grounding references. -/
structure ChatMessage where
  role : String
  parts : List MessagePart
  groundingChunks : Option (List GroundingChunk)
deriving DecidableEq

/-- The conversation view's per-message markup (source line 142):
`renderMarkdown(message.parts[0].text)`.  The element access is partial;
an empty `parts` sequence gives no well-defined result. -/
def renderMessageHtml (m : ChatMessage) : Option String :=
  m.parts.head?.map (fun p => renderMarkdown p.text)

/-- Rendering the whole history (source lines 135–142): defined only
when every message renders. -/
def renderHistory : List ChatMessage → Option (List String)
  | [] => some []
  | m :: rest =>
    match renderMessageHtml m, renderHistory rest with
    | some h, some hs => some (h :: hs)
    | _, _ => none

/-- A sequence of renderer calls: each call's output (the renderer
keeps no state between calls). -/
def renderCalls (inputs : List String) : List String := inputs.map renderMarkdown

/-- `catMap` distributes over append. -/
theorem catMap_append (f : α → List Char) (l1 l2 : List α) :
    catMap f (l1 ++ l2) = catMap f l1 ++ catMap f l2 := by
  induction l1 with
  | nil => simp [catMap]
  | cons a l ih => simp [catMap, ih]

/-- One step of the string machine tracks one step of the block
machine. -/
theorem stepS_absState (b : BState) (c : LineClass) :
    stepS (absState b) c = absState (stepB b c) := by
  obtain ⟨out, p⟩ := b
  cases c with
  | olItem i =>
    cases p with
    | nothing =>
      simp [stepS, stepB, absState, flushPara, flushList, pendKind, pendPara, pendHtml,
        pendingBlocks, blocksHtml, catMap, blockHtml, listOpen, listClose, catMap_append, List.append_assoc]
    | inList k items =>
      cases k <;>
        simp [stepS, stepB, absState, flushPara, flushList, pendKind, pendPara, pendHtml,
          pendingBlocks, blocksHtml, catMap, blockHtml, listOpen, listClose, catMap_append, List.append_assoc]
    | inPara buf =>
      by_cases hb : buf = [] <;>
        simp [stepS, stepB, absState, flushPara, flushList, pendKind, pendPara, pendHtml,
          pendingBlocks, blocksHtml, catMap, blockHtml, listOpen, listClose, catMap_append, List.append_assoc, hb]
  | ulItem i =>
    cases p with
    | nothing =>
      simp [stepS, stepB, absState, flushPara, flushList, pendKind, pendPara, pendHtml,
        pendingBlocks, blocksHtml, catMap, blockHtml, listOpen, listClose, catMap_append, List.append_assoc]
    | inList k items =>
      cases k <;>
        simp [stepS, stepB, absState, flushPara, flushList, pendKind, pendPara, pendHtml,
          pendingBlocks, blocksHtml, catMap, blockHtml, listOpen, listClose, catMap_append, List.append_assoc]
    | inPara buf =>
      by_cases hb : buf = [] <;>
        simp [stepS, stepB, absState, flushPara, flushList, pendKind, pendPara, pendHtml,
          pendingBlocks, blocksHtml, catMap, blockHtml, listOpen, listClose, catMap_append, List.append_assoc, hb]
  | blank =>
    cases p with
    | nothing =>
      simp [stepS, stepB, absState, flushPara, flushList, pendKind, pendPara, pendHtml,
        pendingBlocks, blocksHtml, catMap, blockHtml, listOpen, listClose, catMap_append, List.append_assoc]
    | inList k items =>
      simp [stepS, stepB, absState, flushPara, flushList, pendKind, pendPara, pendHtml,
        pendingBlocks, blocksHtml, catMap, blockHtml, listOpen, listClose, catMap_append, List.append_assoc]
    | inPara buf =>
      by_cases hb : buf = [] <;>
        simp [stepS, stepB, absState, flushPara, flushList, pendKind, pendPara, pendHtml,
          pendingBlocks, blocksHtml, catMap, blockHtml, listOpen, listClose, catMap_append, List.append_assoc, hb]
  | txt l =>
    cases p with
    | nothing =>
      simp [stepS, stepB, absState, flushPara, flushList, pendKind, pendPara, pendHtml,
        pendingBlocks, blocksHtml, catMap, blockHtml, listOpen, listClose, catMap_append, List.append_assoc]
    | inList k items =>
      simp [stepS, stepB, absState, flushPara, flushList, pendKind, pendPara, pendHtml,
        pendingBlocks, blocksHtml, catMap, blockHtml, listOpen, listClose, catMap_append, List.append_assoc]
    | inPara buf =>
      by_cases hb : buf = [] <;>
        simp [stepS, stepB, absState, flushPara, flushList, pendKind, pendPara, pendHtml,
          pendingBlocks, blocksHtml, catMap, blockHtml, listOpen, listClose, catMap_append, List.append_assoc, hb]

/-- Folding the string machine from an abstracted state tracks folding
the block machine. -/
theorem foldl_stepS_absState (cls : List LineClass) :
    ∀ b : BState, cls.foldl stepS (absState b) = absState (cls.foldl stepB b) := by
  induction cls with
  | nil => intro b; rfl
  | cons c rest ih =>
    intro b
    rw [List.foldl_cons, List.foldl_cons, stepS_absState, ih]

/-- The final `flushPara(); flushList();` of the string machine writes
exactly the markup of the block machine's final flush. -/
theorem finalFlush_absState (b : BState) :
    (flushList (flushPara (absState b))).html = blocksHtml (finalB b) := by
  obtain ⟨out, p⟩ := b
  cases p with
  | nothing =>
    simp [flushPara, flushList, absState, pendKind, pendPara, pendHtml, finalB,
      pendingBlocks, blocksHtml, catMap, blockHtml, listOpen, listClose, catMap_append]
  | inList k items =>
    simp [flushPara, flushList, absState, pendKind, pendPara, pendHtml, finalB,
      pendingBlocks, blocksHtml, catMap, blockHtml, listOpen, listClose, catMap_append, List.append_assoc]
  | inPara buf =>
    by_cases hb : buf = [] <;>
      simp [flushPara, flushList, absState, pendKind, pendPara, pendHtml, finalB,
        pendingBlocks, blocksHtml, catMap, blockHtml, listOpen, listClose, catMap_append, List.append_assoc, hb]

/-- Consuming a run of ordered items while an ordered list is open just
appends the items. -/
theorem procRun_ol (is : List (List Char)) :
    ∀ (out : List Block) (items : List (List Char)),
      (is.map LineClass.olItem).foldl stepB ⟨out, .inList .ol items⟩
        = ⟨out, .inList .ol (items ++ is)⟩ := by
  induction is with
  | nil => intro out items; simp
  | cons i is ih =>
    intro out items
    simp only [List.map_cons, List.foldl_cons, stepB]
    rw [ih]
    simp

/-- Consuming a run of unordered items while an unordered list is open
just appends the items. -/
theorem procRun_ul (is : List (List Char)) :
    ∀ (out : List Block) (items : List (List Char)),
      (is.map LineClass.ulItem).foldl stepB ⟨out, .inList .ul items⟩
        = ⟨out, .inList .ul (items ++ is)⟩ := by
  induction is with
  | nil => intro out items; simp
  | cons i is ih =>
    intro out items
    simp only [List.map_cons, List.foldl_cons, stepB]
    rw [ih]
    simp

/-- Consuming a run of plain lines while a non-empty paragraph buffer
is pending appends each line with a line-break marker. -/
theorem procRun_txt (ts : List (List Char)) :
    ∀ (out : List Block) (buf : List Char), buf ≠ [] →
      (ts.map LineClass.txt).foldl stepB ⟨out, .inPara buf⟩
        = ⟨out, .inPara (buf ++ catMap (fun s => brTag ++ s) ts)⟩ := by
  induction ts with
  | nil => intro out buf _; simp [catMap]
  | cons t ts ih =>
    intro out buf hbuf
    simp only [List.map_cons, List.foldl_cons, stepB, if_neg hbuf]
    rw [ih out (buf ++ brTag ++ t) (by simp [hbuf])]
    simp [catMap, List.append_assoc]

/-- A blank line is related to nothing. -/
theorem sameRun_blank (c : LineClass) : sameRun .blank c = false := by
  cases c <;> rfl

/-- `takeRun` from a blank line takes nothing. -/
theorem takeRun_blank (rest : List LineClass) :
    takeRun sameRun .blank rest = ([], rest) := by
  cases rest with
  | nil => rfl
  | cons b r => simp [takeRun, sameRun_blank]

/-- The run continuing an ordered item consists of ordered items, and
the rest does not start with one. -/
theorem takeRun_ol_spec (rest : List LineClass) :
    ∀ i, ∃ (is : List (List Char)) (rest2 : List LineClass),
      takeRun sameRun (.olItem i) rest = (is.map LineClass.olItem, rest2)
      ∧ rest = is.map LineClass.olItem ++ rest2
      ∧ ∀ j, rest2.head? ≠ some (.olItem j) := by
  induction rest with
  | nil => intro i; exact ⟨[], [], by simp [takeRun]⟩
  | cons c r ih =>
    intro i
    cases c with
    | olItem j =>
      obtain ⟨is, rest2, heq, hsplit, hhead⟩ := ih j
      refine ⟨j :: is, rest2, ?_, ?_, hhead⟩
      · simp [takeRun, sameRun, heq]
      · simp [hsplit]
    | ulItem j => exact ⟨[], .ulItem j :: r, by simp [takeRun, sameRun]⟩
    | blank => exact ⟨[], .blank :: r, by simp [takeRun, sameRun]⟩
    | txt l => exact ⟨[], .txt l :: r, by simp [takeRun, sameRun]⟩

/-- The run continuing an unordered item consists of unordered items,
and the rest does not start with one. -/
theorem takeRun_ul_spec (rest : List LineClass) :
    ∀ i, ∃ (is : List (List Char)) (rest2 : List LineClass),
      takeRun sameRun (.ulItem i) rest = (is.map LineClass.ulItem, rest2)
      ∧ rest = is.map LineClass.ulItem ++ rest2
      ∧ ∀ j, rest2.head? ≠ some (.ulItem j) := by
  induction rest with
  | nil => intro i; exact ⟨[], [], by simp [takeRun]⟩
  | cons c r ih =>
    intro i
    cases c with
    | ulItem j =>
      obtain ⟨is, rest2, heq, hsplit, hhead⟩ := ih j
      refine ⟨j :: is, rest2, ?_, ?_, hhead⟩
      · simp [takeRun, sameRun, heq]
      · simp [hsplit]
    | olItem j => exact ⟨[], .olItem j :: r, by simp [takeRun, sameRun]⟩
    | blank => exact ⟨[], .blank :: r, by simp [takeRun, sameRun]⟩
    | txt l => exact ⟨[], .txt l :: r, by simp [takeRun, sameRun]⟩

/-- The run continuing a plain line consists of plain lines, and the
rest does not start with one. -/
theorem takeRun_txt_spec (rest : List LineClass) :
    ∀ l, ∃ (ts : List (List Char)) (rest2 : List LineClass),
      takeRun sameRun (.txt l) rest = (ts.map LineClass.txt, rest2)
      ∧ rest = ts.map LineClass.txt ++ rest2
      ∧ ∀ s, rest2.head? ≠ some (.txt s) := by
  induction rest with
  | nil => intro l; exact ⟨[], [], by simp [takeRun]⟩
  | cons c r ih =>
    intro l
    cases c with
    | txt s =>
      obtain ⟨ts, rest2, heq, hsplit, hhead⟩ := ih s
      refine ⟨s :: ts, rest2, ?_, ?_, hhead⟩
      · simp [takeRun, sameRun, heq]
      · simp [hsplit]
    | olItem j => exact ⟨[], .olItem j :: r, by simp [takeRun, sameRun]⟩
    | ulItem j => exact ⟨[], .ulItem j :: r, by simp [takeRun, sameRun]⟩
    | blank => exact ⟨[], .blank :: r, by simp [takeRun, sameRun]⟩


/-- Extracting item texts from a mapped run of ordered items. -/
theorem filterMap_olText (is : List (List Char)) :
    List.filterMap (olText ∘ LineClass.olItem) is = is := by
  induction is with
  | nil => rfl
  | cons i is ih => simp [olText, Function.comp, ih]

/-- Extracting item texts from a mapped run of unordered items. -/
theorem filterMap_ulText (is : List (List Char)) :
    List.filterMap (ulText ∘ LineClass.ulItem) is = is := by
  induction is with
  | nil => rfl
  | cons i is ih => simp [ulText, Function.comp, ih]

/-- Extracting line texts from a mapped run of plain lines. -/
theorem filterMap_txtText (ts : List (List Char)) :
    List.filterMap (txtText ∘ LineClass.txt) ts = ts := by
  induction ts with
  | nil => rfl
  | cons t ts ih => simp [txtText, Function.comp, ih]

/-- An empty pending output never merges. -/
theorem freshFor_nothing (cls : List LineClass) : freshFor Pending.nothing cls := by
  cases cls <;> trivial

/-- Main structure theorem, generalized: running the block machine over
good classified lines from any emitted prefix and any pending output
that does not merge with the first line emits the pending output and
then exactly one block per maximal run. -/
theorem procSpec_aux :
    ∀ (n : Nat) (cls : List LineClass), cls.length ≤ n →
      ∀ (out : List Block) (p : Pending), goodCls cls → freshFor p cls →
        finalB (cls.foldl stepB ⟨out, p⟩) = out ++ (pendingBlocks p ++ specBlocks cls) := by
  intro n
  induction n with
  | zero =>
    intro cls hlen out p hg hf
    have hnil : cls = [] := List.eq_nil_of_length_eq_zero (Nat.le_zero.mp hlen)
    subst hnil
    simp [finalB, specBlocks]
  | succ n ih =>
    intro cls hlen out p hg hf
    cases cls with
    | nil => simp [finalB, specBlocks]
    | cons c rest =>
      cases c with
      | olItem i =>
        obtain ⟨is, rest2, htr, hsplit, hhead⟩ := takeRun_ol_spec rest i
        subst hsplit
        have hstep : stepB ⟨out, p⟩ (.olItem i) = ⟨out ++ pendingBlocks p, .inList .ol [i]⟩ := by
          cases p with
          | nothing => simp [stepB, pendingBlocks]
          | inPara buf => simp [stepB]
          | inList k items =>
            cases k with
            | ol => simp [freshFor] at hf
            | ul => simp [stepB]
        rw [List.foldl_cons, hstep, List.foldl_append, procRun_ol]
        simp only [List.singleton_append]
        have hgood2 : goodCls rest2 := fun x hx =>
          hg x (List.mem_cons_of_mem _ (List.mem_append_right _ hx))
        have hfresh2 : freshFor (.inList .ol (i :: is)) rest2 := by
          cases rest2 with
          | nil => trivial
          | cons c2 r2 =>
            cases c2 with
            | olItem j => exact absurd rfl (hhead j)
            | ulItem j => trivial
            | blank => trivial
            | txt s => trivial
        have hlen2 : rest2.length ≤ n := by
          simp [List.length_cons, List.length_append] at hlen
          omega
        rw [ih rest2 hlen2 (out ++ pendingBlocks p) (.inList .ol (i :: is)) hgood2 hfresh2]
        have hspec : specBlocks (.olItem i :: (is.map LineClass.olItem ++ rest2))
            = .list .ol (i :: is) :: specBlocks rest2 := by
          simp only [specBlocks]
          rw [htr]
          simp [runToBlock, olText, filterMap_olText]
        rw [hspec]
        simp [pendingBlocks, List.append_assoc]
      | ulItem i =>
        obtain ⟨is, rest2, htr, hsplit, hhead⟩ := takeRun_ul_spec rest i
        subst hsplit
        have hstep : stepB ⟨out, p⟩ (.ulItem i) = ⟨out ++ pendingBlocks p, .inList .ul [i]⟩ := by
          cases p with
          | nothing => simp [stepB, pendingBlocks]
          | inPara buf => simp [stepB]
          | inList k items =>
            cases k with
            | ul => simp [freshFor] at hf
            | ol => simp [stepB]
        rw [List.foldl_cons, hstep, List.foldl_append, procRun_ul]
        simp only [List.singleton_append]
        have hgood2 : goodCls rest2 := fun x hx =>
          hg x (List.mem_cons_of_mem _ (List.mem_append_right _ hx))
        have hfresh2 : freshFor (.inList .ul (i :: is)) rest2 := by
          cases rest2 with
          | nil => trivial
          | cons c2 r2 =>
            cases c2 with
            | ulItem j => exact absurd rfl (hhead j)
            | olItem j => trivial
            | blank => trivial
            | txt s => trivial
        have hlen2 : rest2.length ≤ n := by
          simp [List.length_cons, List.length_append] at hlen
          omega
        rw [ih rest2 hlen2 (out ++ pendingBlocks p) (.inList .ul (i :: is)) hgood2 hfresh2]
        have hspec : specBlocks (.ulItem i :: (is.map LineClass.ulItem ++ rest2))
            = .list .ul (i :: is) :: specBlocks rest2 := by
          simp only [specBlocks]
          rw [htr]
          simp [runToBlock, ulText, filterMap_ulText]
        rw [hspec]
        simp [pendingBlocks, List.append_assoc]
      | blank =>
        have hstep : stepB ⟨out, p⟩ .blank = ⟨out ++ pendingBlocks p, .nothing⟩ := by
          cases p <;> simp [stepB]
        rw [List.foldl_cons, hstep]
        have hgood2 : goodCls rest := fun x hx => hg x (List.mem_cons_of_mem _ hx)
        have hlen2 : rest.length ≤ n := by
          simp [List.length_cons] at hlen
          omega
        rw [ih rest hlen2 (out ++ pendingBlocks p) .nothing hgood2 (freshFor_nothing rest)]
        have hspec : specBlocks (LineClass.blank :: rest) = specBlocks rest := by
          simp only [specBlocks]
          rw [takeRun_blank]
          simp [runToBlock]
        rw [hspec]
        simp [pendingBlocks, List.append_assoc]
      | txt l =>
        have hl : l ≠ [] := hg _ (List.mem_cons_self _ _)
        obtain ⟨ts, rest2, htr, hsplit, hhead⟩ := takeRun_txt_spec rest l
        subst hsplit
        have hstep : stepB ⟨out, p⟩ (.txt l) = ⟨out ++ pendingBlocks p, .inPara l⟩ := by
          cases p with
          | nothing => simp [stepB, pendingBlocks]
          | inList k items => simp [stepB]
          | inPara buf =>
            have hb : buf = [] := hf
            subst hb
            simp [stepB, pendingBlocks]
        rw [List.foldl_cons, hstep, List.foldl_append,
          procRun_txt ts (out ++ pendingBlocks p) l hl]
        have hjoin : l ++ catMap (fun s => brTag ++ s) ts = joinBr (l :: ts) := rfl
        rw [hjoin]
        have hgood2 : goodCls rest2 := fun x hx =>
          hg x (List.mem_cons_of_mem _ (List.mem_append_right _ hx))
        have hfresh2 : freshFor (.inPara (joinBr (l :: ts))) rest2 := by
          cases rest2 with
          | nil => trivial
          | cons c2 r2 =>
            cases c2 with
            | txt s => exact absurd rfl (hhead s)
            | olItem j => trivial
            | ulItem j => trivial
            | blank => trivial
        have hlen2 : rest2.length ≤ n := by
          simp [List.length_cons, List.length_append] at hlen
          omega
        rw [ih rest2 hlen2 (out ++ pendingBlocks p) (.inPara (joinBr (l :: ts))) hgood2 hfresh2]
        have hjb : joinBr (l :: ts) ≠ [] := by simp [joinBr, hl]
        have hspec : specBlocks (.txt l :: (ts.map LineClass.txt ++ rest2))
            = .para (joinBr (l :: ts)) :: specBlocks rest2 := by
          simp only [specBlocks]
          rw [htr]
          simp [runToBlock, txtText, filterMap_txtText]
        rw [hspec]
        simp [pendingBlocks, hjb, List.append_assoc]

/-- Classification never produces a plain-text class with an empty
line: an empty line trims to nothing and is classified blank. -/
theorem classify_good (l : List Char) : goodClass (classify l) := by
  unfold classify
  cases matchOl l with
  | some item => trivial
  | none =>
    cases matchUl l with
    | some item => trivial
    | none =>
      by_cases h : jsTrim l = []
      · simp only [if_pos h]
        trivial
      · simp only [if_neg h]
        show l ≠ []
        intro hl
        exact h (by simp [hl, jsTrim])

/-- The string renderer's loop produces exactly the markup of the
specification blocks of the classified lines. -/
theorem runLines_eq (lines : List (List Char)) :
    runLines lines = blocksHtml (specBlocks (lines.map (fun l => classify (lineSub l)))) := by
  have hfold : lines.foldl stepLine mdInit
      = (lines.map (fun l => classify (lineSub l))).foldl stepS mdInit := by
    rw [List.foldl_map]
    rfl
  unfold runLines
  rw [hfold]
  have habs : mdInit = absState ⟨[], Pending.nothing⟩ := rfl
  rw [habs, foldl_stepS_absState, finalFlush_absState]
  have hg : goodCls (lines.map (fun l => classify (lineSub l))) := by
    intro c hc
    obtain ⟨l, _, rfl⟩ := List.mem_map.mp hc
    exact classify_good _
  have hmain := procSpec_aux (lines.map (fun l => classify (lineSub l))).length
    (lines.map (fun l => classify (lineSub l))) le_rfl [] Pending.nothing hg
    (freshFor_nothing _)
  simp only [pendingBlocks, List.nil_append] at hmain
  rw [hmain]

/-- The renderer agrees with the maximal-run specification on every
input string. -/
theorem render_eq_specRender (text : String) :
    renderMarkdown text = specRenderString text := by
  by_cases h : text = ""
  · simp [renderMarkdown, specRenderString, h]
  · simp only [renderMarkdown, specRenderString, if_neg h]
    exact congrArg String.mk (runLines_eq _)

/-- Flushing the paragraph always clears the buffer. -/
theorem flushPara_para (st : SState) : (flushPara st).para = [] := by
  by_cases h : st.para = [] <;> simp [flushPara, h]

/-- Flushing the paragraph does not touch the list type. -/
theorem flushPara_listType (st : SState) : (flushPara st).listType = st.listType := by
  by_cases h : st.para = [] <;> simp [flushPara, h]

/-- Flushing the list always clears the list type. -/
theorem flushList_listType (st : SState) : (flushList st).listType = none := by
  cases h : st.listType <;> simp [flushList, h]

/-- Flushing the list does not touch the paragraph buffer. -/
theorem flushList_para (st : SState) : (flushList st).para = st.para := by
  cases h : st.listType <;> simp [flushList, h]

/-- An ordered-list item line leaves the paragraph buffer empty. -/
theorem stepS_olItem_para (st : SState) (i : List Char) :
    (stepS st (.olItem i)).para = [] := by
  simp only [stepS]
  by_cases h : (flushPara st).listType = some LKind.ol
  · simp [h, flushPara_para]
  · simp [h, flushList_para, flushPara_para]

/-- An unordered-list item line leaves the paragraph buffer empty. -/
theorem stepS_ulItem_para (st : SState) (i : List Char) :
    (stepS st (.ulItem i)).para = [] := by
  simp only [stepS]
  by_cases h : (flushPara st).listType = some LKind.ul
  · simp [h, flushPara_para]
  · simp [h, flushList_para, flushPara_para]

/-- A plain line closes any open list. -/
theorem stepS_txt_listType (st : SState) (l : List Char) :
    (stepS st (.txt l)).listType = none := by
  simp only [stepS]
  simp [flushList_listType]

/-- A blank line closes any open list. -/
theorem stepS_blank_listType (st : SState) :
    (stepS st .blank).listType = none := by
  simp only [stepS]
  rw [flushPara_listType, flushList_listType]

/-- After any step, an open list and a pending paragraph never coexist. -/
theorem stepS_noMix (st : SState) (c : LineClass) :
    (stepS st c).listType = none ∨ (stepS st c).para = [] := by
  cases c with
  | olItem i => exact Or.inr (stepS_olItem_para st i)
  | ulItem i => exact Or.inr (stepS_ulItem_para st i)
  | blank => exact Or.inl (stepS_blank_listType st)
  | txt l => exact Or.inl (stepS_txt_listType st l)

/-- The no-coexistence invariant holds along the whole loop. -/
theorem foldl_noMix (lines : List (List Char)) :
    ∀ st : SState, st.listType = none ∨ st.para = [] →
      (lines.foldl stepLine st).listType = none ∨ (lines.foldl stepLine st).para = [] := by
  induction lines with
  | nil => intro st hst; exact hst
  | cons l lines ih =>
    intro st _
    exact ih (stepLine st l) (stepS_noMix st (classify (lineSub l)))

/-- Index and current value of the rotator after `n` ticks. -/
theorem rot_iterate (q0 : String) (rest : List String) :
    ∀ n : Nat,
      ((suggestionTick (q0 :: rest))^[n] (suggestionStart (q0 :: rest))).suggestionIndex
          = n % (q0 :: rest).length
      ∧ ((suggestionTick (q0 :: rest))^[n] (suggestionStart (q0 :: rest))).currentSuggestion
          = (q0 :: rest).getD (n % (q0 :: rest).length) "" := by
  intro n
  induction n with
  | zero => simp [suggestionStart]
  | succ n ih =>
    obtain ⟨h1, h2⟩ := ih
    rw [Function.iterate_succ_apply']
    constructor
    · simp [suggestionTick, h1, Nat.mod_add_mod]
    · simp [suggestionTick, h1, Nat.mod_add_mod]

/-- The lifecycle invariant holds initially. -/
theorem TInv_init : TInv initSys := by
  simp [TInv, initSys]

/-- After the cleanup, no timer is scheduled. -/
theorem runCleanup_active (s : TimerSys) (h : TInv s) :
    (runCleanup s).active = [] ∧ (runCleanup s).curTimer = none := by
  cases hc : s.curTimer with
  | none =>
    have ha : s.active = [] := by simpa [TInv, hc] using h
    simp [runCleanup, hc, ha]
  | some id =>
    have ha : s.active = [id] ∧ id < s.nextId := by simpa [TInv, hc] using h
    simp [runCleanup, hc, ha.1]

/-- The lifecycle invariant is preserved by every event. -/
theorem TInv_step (s : TimerSys) (e : CEvent) (h : TInv s) : TInv (stepEvent s e) := by
  cases e with
  | setList qs =>
    obtain ⟨hactive, hcur⟩ := runCleanup_active s h
    unfold stepEvent runEffect
    by_cases hq : qs.length = 0
    · simp [hq, TInv, hactive, hcur]
    · simp [hq, TInv, hactive, hcur]
  | tick id =>
    unfold stepEvent
    by_cases hm : id ∈ s.active
    · simp only [if_pos hm]
      cases hc : s.curTimer with
      | none =>
        have ha : s.active = [] := by simpa [TInv, hc] using h
        simp [TInv, hc, ha]
      | some tid =>
        have ha : s.active = [tid] ∧ tid < s.nextId := by simpa [TInv, hc] using h
        simp [TInv, hc, ha.1, ha.2]
    · simp only [if_neg hm]
      exact h
  | unmount =>
    obtain ⟨hactive, hcur⟩ := runCleanup_active s h
    unfold stepEvent
    simp [TInv, hactive, hcur]

/-- The lifecycle invariant holds after any event sequence. -/
theorem TInv_reach (evs : List CEvent) : TInv (evs.foldl stepEvent initSys) := by
  suffices h : ∀ s, TInv s → TInv (evs.foldl stepEvent s) from h initSys TInv_init
  induction evs with
  | nil => intro s hs; exact hs
  | cons e evs ih => intro s hs; exact ih _ (TInv_step s e hs)

/-- A message renders exactly when it has at least one part. -/
theorem renderMessageHtml_isSome (m : ChatMessage) :
    (renderMessageHtml m).isSome = true ↔ m.parts ≠ [] := by
  cases hp : m.parts with
  | nil => simp [renderMessageHtml, hp]
  | cons a l => simp [renderMessageHtml, hp]

/-- The whole history renders exactly when every message has at least
one part. -/
theorem renderHistory_isSome (history : List ChatMessage) :
    (renderHistory history).isSome = true ↔ ∀ m ∈ history, m.parts ≠ [] := by
  induction history with
  | nil => simp [renderHistory]
  | cons m hist ih =>
    cases hm : renderMessageHtml m with
    | none =>
      have hp : m.parts = [] := by
        cases hp2 : m.parts with
        | nil => rfl
        | cons a l => simp [renderMessageHtml, hp2] at hm
      simp [renderHistory, hm, hp]
    | some str =>
      have hp : m.parts ≠ [] := by
        cases hp2 : m.parts with
        | nil => simp [renderMessageHtml, hp2] at hm
        | cons a l => simp [hp2]
      cases hh : renderHistory hist with
      | none =>
        simp only [renderHistory, hm, hh]
        simp [hp, ← ih, hh]
      | some hs =>
        simp only [renderHistory, hm, hh]
        simp [hp, ← ih, hh]

/-- C1: for every input text, each maximal run of consecutive list-item
lines of the same resulting type is rendered as exactly one list block
whose entries appear in input-line order — `renderMarkdown` agrees with
the maximal-run grouping specification `specRenderString` on every
input.  `* ` and `- ` markers classify as the same unordered type, so
"* a\n- b" is one unordered list with items "a","b" and "1. a\n2. b"
one ordered list with items "a","b"; an ordered/unordered switch with
no intervening blank line closes the open list and opens a new one. -/
theorem claim_list_runs :
    (∀ text : String, renderMarkdown text = specRenderString text)
    ∧ renderMarkdown "* a\n- b"
        = "<ul class=\"list-disc list-inside my-2 pl-5 space-y-1\"><li>a</li><li>b</li></ul>"
    ∧ renderMarkdown "1. a\n2. b"
        = "<ol class=\"list-decimal list-inside my-2 pl-5 space-y-1\"><li>a</li><li>b</li></ol>"
    ∧ renderMarkdown "1. a\n* b"
        = "<ol class=\"list-decimal list-inside my-2 pl-5 space-y-1\"><li>a</li></ol><ul class=\"list-disc list-inside my-2 pl-5 space-y-1\"><li>b</li></ul>" :=
  ⟨render_eq_specRender, by decide, by decide, by decide⟩

/-- C2: consecutive plain non-empty lines accumulate into one paragraph
block, joined with the line-break marker when the buffer is already
non-empty; a blank line flushes the paragraph, so "a\nb" renders as one
paragraph "a<br/>b" while "a\n\nb" renders as two paragraph blocks. -/
theorem claim_paragraphs :
    (∀ (t0 : List Char) (ts : List (List Char)), t0 ≠ [] →
        runBlocks ((t0 :: ts).map LineClass.txt) = [Block.para (joinBr (t0 :: ts))])
    ∧ (∀ t0 t1 : List Char, t0 ≠ [] → t1 ≠ [] →
        runBlocks [LineClass.txt t0, LineClass.blank, LineClass.txt t1]
          = [Block.para t0, Block.para t1])
    ∧ renderMarkdown "a\nb" = "<p class=\"my-2\">a<br/>b</p>"
    ∧ renderMarkdown "a\n\nb" = "<p class=\"my-2\">a</p><p class=\"my-2\">b</p>" := by
  refine ⟨?_, ?_, by decide, by decide⟩
  · intro t0 ts h
    unfold runBlocks
    simp only [List.map_cons, List.foldl_cons]
    have hstep : stepB ⟨[], .nothing⟩ (.txt t0) = ⟨[], .inPara t0⟩ := by simp [stepB]
    rw [hstep, procRun_txt ts [] t0 h]
    simp [finalB, pendingBlocks, joinBr, h]
  · intro t0 t1 h0 h1
    simp [runBlocks, stepB, finalB, pendingBlocks, h0, h1]

/-- C2 witness: both general parts applied at the concrete lines "a"
and "b". -/
theorem claim_paragraphs_witness :
    runBlocks [LineClass.txt "a".data, LineClass.blank, LineClass.txt "b".data]
      = [Block.para "a".data, Block.para "b".data] :=
  claim_paragraphs.2.1 "a".data "b".data (by decide) (by decide)

/-- C3: an open list and a pending paragraph never take effect
together: every step leaves the state with no open list or an empty
paragraph buffer, list-item lines always leave the paragraph buffer
empty (the pending paragraph is flushed first), non-list lines always
leave the list closed, and the invariant holds along the whole loop
from the initial state. -/
theorem claim_no_mix :
    (∀ (st : SState) (c : LineClass),
        (stepS st c).listType = none ∨ (stepS st c).para = [])
    ∧ (∀ (st : SState) (i : List Char),
        (stepS st (.olItem i)).para = [] ∧ (stepS st (.ulItem i)).para = [])
    ∧ (∀ (st : SState) (l : List Char),
        (stepS st (.txt l)).listType = none ∧ (stepS st .blank).listType = none)
    ∧ ∀ lines : List (List Char),
        (lines.foldl stepLine mdInit).listType = none
        ∨ (lines.foldl stepLine mdInit).para = [] :=
  ⟨stepS_noMix,
   fun st i => ⟨stepS_olItem_para st i, stepS_ulItem_para st i⟩,
   fun st l => ⟨stepS_txt_listType st l, stepS_blank_listType st⟩,
   fun lines => foldl_noMix lines mdInit (Or.inl rfl)⟩

/-- C4: each line goes through exactly the three inline substitutions
in order — bold, then emphasis, then inline code, each one global
replace over the whole line — and the three example lines render to the
expected wrapped fragments. -/
theorem claim_inline_order :
    (∀ (st : SState) (raw : List Char), stepLine st raw = stepS st (classify (lineSub raw)))
    ∧ (∀ l : List Char, lineSub l
        = codeReplaceF
            (emReplaceF (boldReplaceF l.length l).length (boldReplaceF l.length l)).length
            (emReplaceF (boldReplaceF l.length l).length (boldReplaceF l.length l)))
    ∧ renderMarkdown "**bold**" = "<p class=\"my-2\"><strong>bold</strong></p>"
    ∧ renderMarkdown "*em*" = "<p class=\"my-2\"><em>em</em></p>"
    ∧ renderMarkdown "`code`"
        = "<p class=\"my-2\"><code class=\"bg-gem-mist/50 px-1 py-0.5 rounded-sm font-mono text-sm\">code</code></p>" :=
  ⟨fun _ _ => rfl, fun _ => rfl, by decide, by decide, by decide⟩

/-- C5: for a non-empty suggestion list the current suggestion starts
at the first element, every tick advances the index by one modulo the
list length and shows the element at the new index, and after `n` ticks
the current suggestion is the element at index `n` modulo the length;
for ["x","y","z"] the start value is "x" and the values after one, two
and three ticks are "y", "z", "x". -/
theorem claim_rotation :
    (∀ (q0 : String) (rest : List String),
        (suggestionStart (q0 :: rest)).currentSuggestion = q0
        ∧ (∀ st : RotState,
            (suggestionTick (q0 :: rest) st).suggestionIndex
              = (st.suggestionIndex + 1) % (q0 :: rest).length
            ∧ (suggestionTick (q0 :: rest) st).currentSuggestion
              = (q0 :: rest).getD ((st.suggestionIndex + 1) % (q0 :: rest).length) "")
        ∧ ∀ n : Nat,
            ((suggestionTick (q0 :: rest))^[n] (suggestionStart (q0 :: rest))).currentSuggestion
              = (q0 :: rest).getD (n % (q0 :: rest).length) "")
    ∧ (suggestionStart ["x", "y", "z"]).currentSuggestion = "x"
    ∧ ((suggestionTick ["x", "y", "z"])^[1] (suggestionStart ["x", "y", "z"])).currentSuggestion = "y"
    ∧ ((suggestionTick ["x", "y", "z"])^[2] (suggestionStart ["x", "y", "z"])).currentSuggestion = "z"
    ∧ ((suggestionTick ["x", "y", "z"])^[3] (suggestionStart ["x", "y", "z"])).currentSuggestion = "x" := by
  refine ⟨fun q0 rest => ⟨?_, fun st => ⟨rfl, rfl⟩, fun n => (rot_iterate q0 rest n).2⟩,
    by decide, by decide, by decide, by decide⟩
  simp [suggestionStart]

/-- C6: along any event sequence at most one timer is ever scheduled,
disposal leaves no scheduled timer and makes later ticks no-ops, and a
dependency change with a non-empty list resets the index to zero, shows
the new first element, and removes the previous timer before the new
one exists. -/
theorem claim_timer_lifecycle :
    ∀ evs : List CEvent,
      (evs.foldl stepEvent initSys).active.length ≤ 1
      ∧ (stepEvent (evs.foldl stepEvent initSys) .unmount).active = []
      ∧ (∀ id : Nat,
          stepEvent (stepEvent (evs.foldl stepEvent initSys) .unmount) (.tick id)
            = stepEvent (evs.foldl stepEvent initSys) .unmount)
      ∧ ∀ qs : List String, qs ≠ [] →
          (stepEvent (evs.foldl stepEvent initSys) (.setList qs)).idx = 0
          ∧ (stepEvent (evs.foldl stepEvent initSys) (.setList qs)).current = qs.getD 0 ""
          ∧ ∀ tid : Nat, (evs.foldl stepEvent initSys).curTimer = some tid →
              tid ∉ (stepEvent (evs.foldl stepEvent initSys) (.setList qs)).active := by
  intro evs
  have hinv := TInv_reach evs
  obtain ⟨hactive, hcur⟩ := runCleanup_active (evs.foldl stepEvent initSys) hinv
  refine ⟨?_, ?_, ?_, ?_⟩
  · cases hc : (evs.foldl stepEvent initSys).curTimer with
    | none =>
      have ha : (evs.foldl stepEvent initSys).active = [] := by simpa [TInv, hc] using hinv
      simp [ha]
    | some tid =>
      have ha : (evs.foldl stepEvent initSys).active = [tid]
          ∧ tid < (evs.foldl stepEvent initSys).nextId := by simpa [TInv, hc] using hinv
      simp [ha.1]
  · simpa [stepEvent] using hactive
  · intro id
    simp [stepEvent, hactive]
  · intro qs hq
    have hq0 : ¬ qs.length = 0 := by simpa using hq
    refine ⟨?_, ?_, ?_⟩
    · simp [stepEvent, runEffect, hq0]
    · simp [stepEvent, runEffect, hq0]
    · intro tid htid
      have h2 : (evs.foldl stepEvent initSys).active = [tid]
          ∧ tid < (evs.foldl stepEvent initSys).nextId := by simpa [TInv, htid] using hinv
      have hrc : runCleanup (evs.foldl stepEvent initSys)
          = { evs.foldl stepEvent initSys with
                active := (evs.foldl stepEvent initSys).active.erase tid,
                curTimer := none } := by
        simp [runCleanup, htid]
      have he : (evs.foldl stepEvent initSys).active.erase tid = [] := by
        have h3 := hactive
        rw [hrc] at h3
        exact h3
      simp [stepEvent, runEffect, hq0, hrc, he]
      omega

/-- C6 witness: after mounting with ["a"], a change to ["b"] resets the
index and the previous timer (id 0) is no longer scheduled. -/
theorem claim_timer_lifecycle_witness :
    (0 : Nat) ∉ (stepEvent ([CEvent.setList ["a"]].foldl stepEvent initSys) (.setList ["b"])).active
    ∧ (stepEvent ([CEvent.setList ["a"]].foldl stepEvent initSys) (.setList ["b"])).idx = 0 := by
  have h := (claim_timer_lifecycle [CEvent.setList ["a"]]).2.2.2 ["b"] (by decide)
  exact ⟨h.2.2 0 (by decide), h.1⟩

/-- C7: an empty suggestion list is a valid steady state: the current
suggestion is the empty string, no timer is started, and the state is
unchanged no matter how much time elapses. -/
theorem claim_empty_rotator :
    (suggestionEffect []).1.currentSuggestion = ""
    ∧ (suggestionEffect []).2 = false
    ∧ ∀ n : Nat, suggestionAfterTicks [] n = (suggestionEffect []).1 :=
  ⟨rfl, rfl, fun n => by simp [suggestionAfterTicks, suggestionEffect]⟩

/-- C8: submitting invokes the send callback exactly when the query
trims non-empty; an empty or whitespace-only query is silently dropped
(no callback, query field unchanged, no error channel), a non-blank
query is sent unmodified and the field cleared. -/
theorem claim_submit_trim :
    (∀ query : String,
        (((handleSubmit query).1.isSome = true) ↔ jsTrim query.data ≠ [])
        ∧ handleSubmit query
            = (if jsTrim query.data = [] then (none, query) else (some query, "")))
    ∧ handleSubmit "   " = (none, "   ")
    ∧ handleSubmit "hi" = (some "hi", "") := by
  refine ⟨fun query => ⟨?_, rfl⟩, by decide, by decide⟩
  by_cases h : jsTrim query.data = [] <;> simp [handleSubmit, h]

/-- C9: the renderer is a pure function of its input text: in any
sequence of calls each output depends only on that call's input, and
rendering the same string any number of times gives identical
outputs. -/
theorem claim_render_pure :
    (∀ (pre post : List String) (s : String),
        renderCalls (pre ++ s :: post) = renderCalls pre ++ renderMarkdown s :: renderCalls post)
    ∧ ∀ (s : String) (n : Nat),
        renderCalls (List.replicate n s) = List.replicate n (renderMarkdown s) := by
  constructor
  · intro pre post s
    simp [renderCalls]
  · intro s n
    simp [renderCalls, List.map_replicate]

/-- C10: the view reads the first part of every message unchecked, so a
message with an empty parts sequence has no well-defined markup and the
whole history renders exactly when every message has at least one
part. -/
theorem claim_parts_precondition :
    (∀ m : ChatMessage, m.parts = [] → renderMessageHtml m = none)
    ∧ (∀ m : ChatMessage, ((renderMessageHtml m).isSome = true ↔ m.parts ≠ []))
    ∧ ∀ history : List ChatMessage,
        ((renderHistory history).isSome = true ↔ ∀ m ∈ history, m.parts ≠ []) := by
  refine ⟨?_, renderMessageHtml_isSome, renderHistory_isSome⟩
  intro m hm
  simp [renderMessageHtml, hm]

/-- C10 witness: a message with no parts produces no markup. -/
theorem claim_parts_precondition_witness :
    renderMessageHtml ⟨"model", [], none⟩ = none :=
  claim_parts_precondition.1 ⟨"model", [], none⟩ rfl
